import Mathlib

/-!
Verification of the Migration Reference Aggregator (ajrichter/tree-samples).

The repository has two Python files:
* `ripgrep.py` — class `EndpointMigrationTracker`: builds ripgrep invocations
  for four search phases, runs them, parses their line-delimited JSON output,
  aggregates matches by file, extracts property keys from config-file matches,
  and renders a migration report.
* `rg_script.py` — `run_ripgrep_search`: a plain-text-mode command builder and
  runner (exits with a one-line message when ripgrep is missing), plus a `main`
  that iterates hard-coded service endpoints.

This file is a shallow embedding of that code.  External effects
(`subprocess.run`, JSON decoding of one stdout line) are represented by
explicit outcome/line data fed to the embedded control flow, which itself is
translated directly from the source.
-/

set_option maxHeartbeats 1000000

namespace RipgrepIdeas

/-! ## Data model -/

/-- Fields the code reads from one ripgrep JSON `match` record:
`data.path.text`, `data.line_number`, `data.lines.text`
(`ripgrep.py` lines 151–153). -/
structure MatchData where
  path : String
  lineNumber : Nat
  text : String
deriving DecidableEq, Repr

/-- One line of a `--json`-mode stdout stream, as seen by the parsing loop in
`_execute_searches` (`ripgrep.py` lines 146–164): either the line fails
`json.loads` (`invalid`), or it is a JSON object whose `type` field is `ty`.
Non-`match` records (begin/end/summary) carry data the code never reads, so
the `data` payload is only meaningful when `ty = "match"`. -/
inductive JsonLine where
  | invalid
  | record (ty : String) (data : MatchData)
deriving DecidableEq, Repr

/-- The dict appended per match in `_execute_searches` (`ripgrep.py`
lines 158–162): keys `line`, `content`, `pattern`. The file path is the key of
the surrounding `results` dict, not a field of the match record. -/
structure RgMatch where
  line : Nat
  content : String
  pattern : String
deriving DecidableEq, Repr

/-- `results`: Python dict from file path to list of match records; Python
dicts preserve insertion order, so the model is an association list. -/
abbrev Results := List (String × List RgMatch)

/-- Dict lookup `results[file_path]` (first — and only — entry with that key). -/
def findFile (res : Results) (f : String) : Option (List RgMatch) :=
  match res with
  | [] => none
  | (g, ms) :: rest => if g = f then some ms else findFile rest f

/-! ## Command builders (`ripgrep.py` lines 14–135, `rg_script.py` lines 6–24) -/

/-- Glob used by the config-file search (`ripgrep.py` line 24). -/
def configGlob : String := "*.\x7bproperties,yml,yaml,json,conf,ini,env\x7d"

/-- Glob used by the property-reference and variable-trace searches
(`ripgrep.py` lines 49, 123). -/
def codeGlob : String := "*.\x7bjava,py,kt,scala\x7d"

/-- Glob used by the Java-side HTTP search (`ripgrep.py` line 104). -/
def javaGlob : String := "*.\x7bjava,kt,scala\x7d"

/-! Python string primitives, modelled structurally over the character list
(Python strings are sequences of code points, so this is the honest model, and
it keeps every definition kernel-evaluable). -/

/-- Whether `sub` is an initial run of `hay`. -/
def leadsList : List Char → List Char → Bool
  | [], _ => true
  | _ :: _, [] => false
  | a :: as, b :: bs => a == b && leadsList as bs

/-- Whether `sub` occurs contiguously somewhere in `hay`. -/
def occursIn (sub : List Char) : List Char → Bool
  | [] => sub.isEmpty
  | c :: rest => leadsList sub (c :: rest) || occursIn sub rest

/-- Python substring containment `sub in s`. -/
def strContains (s sub : String) : Bool :=
  occursIn sub.toList s.toList

/-- Python's default `str.strip()` whitespace set (ASCII part; the inputs this
program manipulates are ASCII). -/
def isPySpace (c : Char) : Bool :=
  c == ' ' || c == '\t' || c == '\n' || c == '\r' || c == '\x0b' || c == '\x0c'

/-- Python `s.strip()`. -/
def pyStrip (s : String) : String :=
  String.mk (((s.toList.dropWhile isPySpace).reverse.dropWhile isPySpace).reverse)

/-- Python `c in s` for a single character `c`. -/
def containsChar (s : String) (c : Char) : Bool :=
  s.toList.contains c

/-- Python `s.split(c)[0]`: the characters before the first occurrence of `c`
(the whole string when `c` does not occur). -/
def takeUntilChar (c : Char) (s : String) : String :=
  String.mk (s.toList.takeWhile fun a => a != c)

/-- Python `url.split('/')[-1]` (`ripgrep.py` line 21): the characters after
the last `/` (the whole string when there is no `/`). -/
def lastSegment (s : String) : String :=
  String.mk ((s.toList.reverse.takeWhile fun a => a != '/').reverse)

/-- Python `s.endswith(e)`. -/
def strEndsWith (s e : String) : Bool :=
  leadsList e.toList.reverse s.toList.reverse

/-- Characters escaped by CPython's `re.escape` (its `_special_chars_map`). -/
def reSpecialChars : List Char :=
  ['(', ')', '[', ']', '\x7b', '\x7d', '?', '*', '+', '-', '|', '^', '$',
   '\\', '.', '&', '~', '#', ' ', '\t', '\n', '\r', '\x0b', '\x0c']

/-- Python `re.escape` (used at `ripgrep.py` line 119): prepend a backslash to
every special character, leave the rest unchanged. -/
def reEscape (s : String) : String :=
  String.join (s.toList.map fun c =>
    if reSpecialChars.contains c then String.mk ['\\', c] else String.mk [c])

/-- `search_literal_urls` command list (`ripgrep.py` lines 16–26); `root` is
`self.project_root`. -/
def search_literal_urls_cmds (root url : String) : List (List String) :=
  [ ["rg", "--json", "-i", url, root],
    ["rg", "--json", "-i", lastSegment url, root],
    ["rg", "--json", "-g", configGlob, url, root] ]

/-- The eight property-access patterns of `search_property_references`
(`ripgrep.py` lines 32–44), with the key interpolated verbatim. -/
def propertyPatterns (key : String) : List String :=
  [ "@Value.*" ++ key,
    "getProperty.*" ++ key,
    "getString.*" ++ key,
    "properties\\.get.*" ++ key,
    "config\\[.*" ++ key ++ ".*\\]",
    "os\\.environ.*" ++ key,
    "settings\\." ++ key,
    "get.*" ++ key ]

/-- `search_property_references` command list (`ripgrep.py` lines 46–51). -/
def search_property_references_cmds (root key : String) : List (List String) :=
  (propertyPatterns key).map fun p =>
    ["rg", "--json", "-e", p, "-g", codeGlob, root]

/-- `java_patterns` (`ripgrep.py` lines 57–78). -/
def javaPatterns : List String :=
  [ "restTemplate\\.(get|post|put|delete|exchange)ForObject",
    "restTemplate\\.exchange",
    "webClient\\..*\\.(get|post|put|delete)\\(\\)",
    "HttpGet|HttpPost|HttpPut|HttpDelete",
    "httpClient\\.execute",
    "Request\\.Builder\\(\\)",
    "okHttpClient\\.newCall",
    "@(GET|POST|PUT|DELETE)\\(",
    "@Path\\(" ]

/-- `python_patterns` (`ripgrep.py` lines 80–97). -/
def pythonPatterns : List String :=
  [ "requests\\.(get|post|put|delete|patch)",
    "urllib\\.request\\.urlopen",
    "urllib2\\.urlopen",
    "httpx\\.(get|post|put|delete)",
    "session\\.(get|post|put|delete)",
    "aiohttp\\.ClientSession",
    "client\\.(get|post|put|delete)" ]

/-- `search_http_calls` command list (`ripgrep.py` lines 99–113). -/
def search_http_calls_cmds (root : String) : List (List String) :=
  (javaPatterns.map fun p =>
    ["rg", "--json", "-e", p, "-g", javaGlob, "-A", "5", "-B", "2", root]) ++
  (pythonPatterns.map fun p =>
    ["rg", "--json", "-e", p, "-g", "*.py", "-A", "5", "-B", "2", root])

/-- `trace_variable_usage` command list (`ripgrep.py` lines 115–133);
`clean_var = re.escape(variable_name)`. -/
def trace_variable_usage_cmds (root v : String) : List (List String) :=
  [ ["rg", "--json", reEscape v ++ "\\s*=", "-g", codeGlob, "-B", "2", "-A", "3", root],
    ["rg", "--json", reEscape v ++ "\\.", "-g", codeGlob, "-B", "2", "-A", "3", root],
    ["rg", "--json", "\\(" ++ reEscape v ++ "[,\\)]", "-g", codeGlob, "-B", "2", "-A", "3", root] ]

/-- Command builder of `rg_script.run_ripgrep_search` (`rg_script.py`
lines 10–24): base flags, optional context flags, repeated `-t` filters, then
the pattern appended last. `file_types = []` models Python's `None` default. -/
def runRipgrepSearchCmd (pat : String) (fileTypes : List String)
    (contextBefore contextAfter : Int) : List String :=
  let cmd := ["rg", "--no-heading", "--line-number", "--color=never"]
  let cmd := if contextBefore > 0 then cmd ++ ["-B", toString contextBefore] else cmd
  let cmd := if contextAfter > 0 then cmd ++ ["-A", toString contextAfter] else cmd
  let cmd := cmd ++ fileTypes.flatMap (fun ft => ["-t", ft])
  cmd ++ [pat]

/-! ## Output parsing and aggregation (`ripgrep.py` lines 137–168) -/

/-- `' '.join(cmd[2:])` — the `pattern` field stored on every match
(`ripgrep.py` line 161). -/
def patField (cmd : List String) : String :=
  " ".intercalate (cmd.drop 2)

/-- `if file_path not in results: results[file_path] = []` followed by
`results[file_path].append(...)` (lines 155–162): append to the existing
entry, creating it on first sight at the end of the dict. -/
def addMatch (res : Results) (p : String) (m : RgMatch) : Results :=
  match res with
  | [] => [(p, [m])]
  | (f, ms) :: rest => if f = p then (f, ms ++ [m]) :: rest else (f, ms) :: addMatch rest p m

/-- Body of the per-line loop of `_execute_searches` (lines 147–164): a line
that fails `json.loads` is skipped; a record whose `type` is not `"match"` is
skipped; a match record is appended under its file path. -/
def processLine (cmd : List String) (acc : Results) (l : JsonLine) : Results :=
  match l with
  | .invalid => acc
  | .record ty d =>
      if ty = "match" then
        addMatch acc d.path ⟨d.lineNumber, d.text, patField cmd⟩
      else acc

/-- The whole stdout-parsing loop of one invocation (lines 146–164), folded
over the already-split lines.  The guards `if result.stdout:` and `if line:`
only skip work that is a no-op in this model (an empty stream / an empty line
would fail `json.loads` anyway). -/
def parseOutput (cmd : List String) (stdout : List JsonLine) (acc : Results) : Results :=
  stdout.foldl (processLine cmd) acc

/-- What `subprocess.run(cmd, capture_output=True, text=True)` (no `check=`)
can do: raise `FileNotFoundError` (binary absent), raise another `OSError`
such as `PermissionError`, or complete with an exit code and captured stdout.
It never raises `CalledProcessError` without `check=True`, so the
`except subprocess.CalledProcessError` handler at line 165 matches none of
these outcomes. -/
inductive RunOutcome where
  | toolNotFound
  | permissionError
  | completed (exitCode : Int) (stdout : List JsonLine)
deriving DecidableEq, Repr

/-- Uncaught Python exceptions that can escape `_execute_searches`. -/
inductive PyError where
  | fileNotFoundError
  | permissionErr
deriving DecidableEq, Repr

/-- Whether an outcome is a completed process (no exception raised). -/
def RunOutcome.isCompleted : RunOutcome → Bool
  | .completed _ _ => true
  | _ => false

/-- Loop of `_execute_searches` (lines 141–166) over the supplied commands,
each paired with its external outcome.  `FileNotFoundError` and
`PermissionError` propagate (the only handler catches
`subprocess.CalledProcessError`, which cannot occur); a completed process has
its stdout parsed into `acc` regardless of exit code. -/
def executeSearchesAux : List (List String × RunOutcome) → Results → Except PyError Results
  | [], acc => .ok acc
  | (_, .toolNotFound) :: _, _ => .error .fileNotFoundError
  | (_, .permissionError) :: _, _ => .error .permissionErr
  | (cmd, .completed _ stdout) :: rest, acc => executeSearchesAux rest (parseOutput cmd stdout acc)

/-- `_execute_searches` (`ripgrep.py` lines 137–168), starting from the empty
`results = {}`. -/
def executeSearches (cmds : List (List String × RunOutcome)) : Except PyError Results :=
  executeSearchesAux cmds []

/-! ## Property-key extraction (`ripgrep.py` lines 207–223) -/

/-- The extension list the code actually checks (`ripgrep.py` line 212). -/
def codeConfigExts : List String :=
  [".properties", ".yml", ".yaml", ".env"]

/-- `any(ext in file_path for ext in [...])` (`ripgrep.py` line 212):
substring containment, not an ends-with test. -/
def isConfigPathCode (p : String) : Bool :=
  codeConfigExts.any fun e => strContains p e

/-- Key derivation from one line of content (`ripgrep.py` lines 215–221):
before the first `=` if any, else before the first `:` if any, trimmed; no
non-emptiness check. -/
def keyOf (content : String) : Option String :=
  if containsChar content '=' then
    some (pyStrip (takeUntilChar '=' content))
  else if containsChar content ':' then
    some (pyStrip (takeUntilChar ':' content))
  else none

/-- Python `set.add`, for a set modelled as a duplicate-free list in insertion
order. -/
def addKey (s : List String) (k : String) : List String :=
  if k ∈ s then s else s ++ [k]

/-- `_extract_property_keys` (`ripgrep.py` lines 207–223). -/
def extract_property_keys (res : Results) : List String :=
  res.foldl
    (fun acc pr =>
      if isConfigPathCode pr.1 then
        pr.2.foldl (fun a m =>
          match keyOf m.content with
          | some k => addKey a k
          | none => a) acc
      else acc)
    []

/-- The seven extensions named by the specification section 4.5. -/
def specConfigExts : List String :=
  [".properties", ".yml", ".yaml", ".json", ".conf", ".ini", ".env"]

/-- Formalisation of claim C1's extractor, written from the claim's words (for
comparison with `extract_property_keys`): keep Matches whose file path ENDS in
one of the SEVEN recognized extensions, derive the key before the first `=`
(else first `:`) trimmed, keep only NON-EMPTY keys, deduplicated. -/
def extract_property_keys_claim (res : Results) : List String :=
  (((res.filter fun pr => specConfigExts.any fun e => strEndsWith pr.1 e).flatMap
      fun pr => pr.2.filterMap fun m => keyOf m.content).filter fun k => k ≠ "").dedup

/-- Declarative restatement of what `_extract_property_keys` computes, used as
the amended form of claim C1: substring containment of the FOUR extensions the
code checks, and no non-emptiness filter on the keys. -/
def extract_property_keys_amended (res : Results) : List String :=
  ((res.filter fun pr => isConfigPathCode pr.1).flatMap
     fun pr => pr.2.filterMap fun m => keyOf m.content).dedup

/-! ## Report rendering, HTTP section (`ripgrep.py` lines 197–203) -/

/-- One rendered match line of the report
(`f"    Line {match['line']}: {match['content'].strip()}\n"`). -/
def renderMatchLine (m : RgMatch) : String :=
  "    Line " ++ toString m.line ++ ": " ++ pyStrip m.content ++ "\n"

/-- One file sub-block of the HTTP-usage section (`ripgrep.py` lines 201–203):
the file header line, then `for match in matches[:3]` rendered lines. -/
def renderFileBlock (file : String) (ms : List RgMatch) : String :=
  "  📁 " ++ file ++ "\n" ++ String.join ((ms.take 3).map renderMatchLine)

/-- The HTTP-client-usage section of `generate_migration_report`
(`ripgrep.py` lines 199–203): section header, then one sub-block per entry of
the aggregated per-file results, in dict order. -/
def renderHttpSection (calls : Results) : String :=
  "\n3. HTTP CLIENT USAGE PATTERNS:\n" ++
    String.join (calls.map fun pr => renderFileBlock pr.1 pr.2)

/-! ## `rg_script.py` runner and main loop -/

/-- What `subprocess.run` can do for the plain-text runner: the binary is
missing (`FileNotFoundError`), or the process completes and its stdout is
captured as a string (`check=False`, so no exception on a non-zero exit). -/
inductive ScriptOutcome where
  | toolNotFound
  | completed (stdout : String)
deriving DecidableEq, Repr

/-- The message printed at `rg_script.py` line 30. -/
def toolMissingMsg : String := "Error: ripgrep (rg) is not installed"

/-- `run_ripgrep_search` (`rg_script.py` lines 26–31) around its
`subprocess.run` call: on `FileNotFoundError` it prints the one-line message
and calls `sys.exit(1)` (modelled as the error value message × exit status);
otherwise it returns `result.stdout` whatever the exit code. -/
def run_ripgrep_search (o : ScriptOutcome) : Except (String × Int) String :=
  match o with
  | .toolNotFound => .error (toolMissingMsg, 1)
  | .completed out => .ok out

/-- The stdout a completed outcome carries (dead default for the error case). -/
def stdoutOf : ScriptOutcome → String
  | .toolNotFound => ""
  | .completed out => out

/-- The sequence of `run_ripgrep_search` calls performed by `main`
(`rg_script.py` lines 41–58), flattened: each call's output is printed as soon
as it returns, and a `sys.exit(1)` inside the runner aborts everything after
it.  Returns the outputs printed before any failure, and the failure (message,
exit status) if one occurred. -/
def runAll : List ScriptOutcome → List String × Option (String × Int)
  | [] => ([], none)
  | o :: rest =>
    match run_ripgrep_search o with
    | .error e => ([], some e)
    | .ok out =>
        let r := runAll rest
        (out :: r.1, r.2)

/-! ## Specification-side helper definitions -/

/-- The Match (if any) that the parsing loop derives from one stdout line of
the invocation `cmd`, restricted to matches for file `f`. -/
def lineMatchFor (f : String) (cmd : List String) (l : JsonLine) : Option RgMatch :=
  match l with
  | .invalid => none
  | .record ty d =>
      if ty = "match" ∧ d.path = f then
        some ⟨d.lineNumber, d.text, patField cmd⟩
      else none

/-- All Matches for file `f` in one invocation's stdout, in arrival order. -/
def matchesFor (f : String) (cmd : List String) (st : List JsonLine) : List RgMatch :=
  st.filterMap (lineMatchFor f cmd)

/-- All Matches for file `f` contributed by one (command, outcome) pair:
nothing unless the process completed. -/
def outcomeMatchesFor (f : String) (p : List String × RunOutcome) : List RgMatch :=
  match p.2 with
  | .completed _ st => matchesFor f p.1 st
  | _ => []

/-- All Matches for file `f` over a batch, invocation order then arrival
order, duplicates preserved. -/
def flatFor (f : String) (cmds : List (List String × RunOutcome)) : List RgMatch :=
  (cmds.map (outcomeMatchesFor f)).flatten

/-- The exception-free fold of `_execute_searches` over completed outcomes
(what the loop computes when no invocation raises). -/
def foldResults (cmds : List (List String × RunOutcome)) (acc : Results) : Results :=
  cmds.foldl
    (fun a p =>
      match p.2 with
      | .completed _ st => parseOutput p.1 st a
      | _ => a)
    acc

/-- Total number of Matches held in an aggregated mapping. -/
def totalMatches (res : Results) : Nat :=
  (res.map fun pr => pr.2.length).sum

/-- Whether a stdout line is a JSON record whose `type` is `"match"`. -/
def isMatchLine : JsonLine → Bool
  | .invalid => false
  | .record ty _ => ty == "match"

/-- Claim C4's shape requirement on one argument list: the pattern is the
final positional argument, optionally followed only by the root path. -/
def patternIsFinalPositional (cmd : List String) (pat root : String) : Prop :=
  cmd.getLast? = some pat ∨
    (cmd.getLast? = some root ∧ cmd.dropLast.getLast? = some pat)

instance (cmd : List String) (pat root : String) :
    Decidable (patternIsFinalPositional cmd pat root) := by
  unfold patternIsFinalPositional
  exact inferInstance

/-! ## Concrete inputs used by counterexamples and witnesses -/

/-- Aggregated results with a match in a `.json` file (recognized by the spec's
extension list but not by the code's), a file merely containing `.env`, and an
empty-key config line. -/
def c1Input : Results :=
  [ ("a.json", [⟨1, "k=v", "p"⟩]),
    ("b.env.bak", [⟨1, "x=1", "p"⟩]),
    ("c.env", [⟨1, "=v", "p"⟩]) ]

/-- A batch of two completed invocations whose outputs hit the same file on
the same physical line. -/
def c8Input : List (List String × RunOutcome) :=
  [ (["rg", "--json", "-e", "p1", "-g", "*.py", "r"],
      .completed 0 [.record "match" ⟨"f.py", 4, "t1"⟩]),
    (["rg", "--json", "-e", "p2", "-g", "*.py", "r"],
      .completed 1 [.record "match" ⟨"f.py", 4, "t1"⟩]) ]

/-- A single completed invocation producing one match. -/
def c10Input : List (List String × RunOutcome) :=
  [ (["rg", "--json", "-e", "p1", "-g", "*.py", "r"],
      .completed 0 [.record "match" ⟨"f.py", 4, "t1"⟩]) ]

/-- An aggregated HTTP-phase mapping whose single file has four matches. -/
def c7Input : Results :=
  [ ("f.java", [⟨1, "a", "p"⟩, ⟨2, "b", "p"⟩, ⟨3, "c", "p"⟩, ⟨4, "d", "p"⟩]) ]

/-! ## Lemmas about the aggregation loop -/

theorem findFile_addMatch (res : Results) (p : String) (m : RgMatch) (f : String) :
    findFile (addMatch res p m) f =
      if p = f then some ((findFile res f).getD [] ++ [m]) else findFile res f := by
  induction res with
  | nil =>
      by_cases h : p = f <;> simp [addMatch, findFile, h]
  | cons hd tl ih =>
      obtain ⟨g, ms⟩ := hd
      by_cases hgp : g = p
      · subst hgp
        by_cases hgf : g = f <;> simp [addMatch, findFile, hgf]
      · by_cases hgf : g = f
        · subst hgf
          have hpf : ¬ p = g := fun h => hgp h.symm
          simp [addMatch, findFile, hgp, hpf]
        · simp [addMatch, findFile, hgp, hgf, ih]

theorem findFile_parseOutput (cmd : List String) (st : List JsonLine) :
    ∀ (acc : Results) (f : String),
      findFile (parseOutput cmd st acc) f =
        if matchesFor f cmd st = [] then findFile acc f
        else some ((findFile acc f).getD [] ++ matchesFor f cmd st) := by
  induction st with
  | nil =>
      intro acc f
      simp [parseOutput, matchesFor]
  | cons l rest ih =>
      intro acc f
      have hstep : parseOutput cmd (l :: rest) acc
          = parseOutput cmd rest (processLine cmd acc l) := rfl
      rw [hstep]
      cases l with
      | invalid =>
          simpa [processLine, matchesFor, lineMatchFor] using ih acc f
      | record ty d =>
          by_cases hty : ty = "match"
          · subst hty
            by_cases hpf : d.path = f
            · have hproc : processLine cmd acc (.record "match" d)
                  = addMatch acc d.path ⟨d.lineNumber, d.text, patField cmd⟩ := by
                simp [processLine]
              have hm : matchesFor f cmd (JsonLine.record "match" d :: rest)
                  = ⟨d.lineNumber, d.text, patField cmd⟩ :: matchesFor f cmd rest := by
                simp [matchesFor, lineMatchFor, hpf]
              rw [hproc, ih, findFile_addMatch, if_pos hpf, hm]
              rcases hrest : matchesFor f cmd rest with _ | ⟨m1, ms1⟩
              · simp
              · simp
            · have hproc : processLine cmd acc (.record "match" d)
                  = addMatch acc d.path ⟨d.lineNumber, d.text, patField cmd⟩ := by
                simp [processLine]
              have hm : matchesFor f cmd (JsonLine.record "match" d :: rest)
                  = matchesFor f cmd rest := by
                simp [matchesFor, lineMatchFor, hpf]
              rw [hproc, ih, findFile_addMatch, if_neg hpf, hm]
          · have hproc : processLine cmd acc (.record ty d) = acc := by
              simp [processLine, hty]
            have hm : matchesFor f cmd (JsonLine.record ty d :: rest)
                = matchesFor f cmd rest := by
              simp [matchesFor, lineMatchFor, hty]
            rw [hproc, ih, hm]

theorem executeSearchesAux_ok (cmds : List (List String × RunOutcome))
    (hc : ∀ p ∈ cmds, p.2.isCompleted = true) :
    ∀ acc, executeSearchesAux cmds acc = .ok (foldResults cmds acc) := by
  induction cmds with
  | nil => intro acc; rfl
  | cons c rest ih =>
      intro acc
      obtain ⟨cmd, o⟩ := c
      cases o with
      | toolNotFound =>
          exact absurd (hc _ (List.mem_cons_self _ _)) (by simp [RunOutcome.isCompleted])
      | permissionError =>
          exact absurd (hc _ (List.mem_cons_self _ _)) (by simp [RunOutcome.isCompleted])
      | completed ec st =>
          have hrest : ∀ p ∈ rest, p.2.isCompleted = true :=
            fun p hp => hc p (List.mem_cons_of_mem _ hp)
          exact ih hrest (parseOutput cmd st acc)

theorem findFile_foldResults (cmds : List (List String × RunOutcome)) :
    ∀ (acc : Results) (f : String),
      findFile (foldResults cmds acc) f =
        if flatFor f cmds = [] then findFile acc f
        else some ((findFile acc f).getD [] ++ flatFor f cmds) := by
  induction cmds with
  | nil =>
      intro acc f
      simp [foldResults, flatFor]
  | cons c rest ih =>
      intro acc f
      obtain ⟨cmd, o⟩ := c
      cases o with
      | toolNotFound =>
          have hstep : foldResults ((cmd, RunOutcome.toolNotFound) :: rest) acc
              = foldResults rest acc := rfl
          have hflat : flatFor f ((cmd, RunOutcome.toolNotFound) :: rest)
              = flatFor f rest := by
            simp [flatFor, outcomeMatchesFor]
          rw [hstep, hflat, ih]
      | permissionError =>
          have hstep : foldResults ((cmd, RunOutcome.permissionError) :: rest) acc
              = foldResults rest acc := rfl
          have hflat : flatFor f ((cmd, RunOutcome.permissionError) :: rest)
              = flatFor f rest := by
            simp [flatFor, outcomeMatchesFor]
          rw [hstep, hflat, ih]
      | completed ec st =>
          have hstep : foldResults ((cmd, RunOutcome.completed ec st) :: rest) acc
              = foldResults rest (parseOutput cmd st acc) := rfl
          have hflat : flatFor f ((cmd, RunOutcome.completed ec st) :: rest)
              = matchesFor f cmd st ++ flatFor f rest := by
            simp [flatFor, outcomeMatchesFor]
          rw [hstep, hflat, ih, findFile_parseOutput]
          rcases h1 : matchesFor f cmd st with _ | ⟨a, as⟩ <;>
            rcases h2 : flatFor f rest with _ | ⟨b, bs⟩ <;>
              simp [h1, h2]

theorem nonempty_addMatch (res : Results) (p : String) (m : RgMatch)
    (hres : ∀ pr ∈ res, pr.2 ≠ []) :
    ∀ pr ∈ addMatch res p m, pr.2 ≠ [] := by
  induction res with
  | nil =>
      intro pr hpr
      simp [addMatch] at hpr
      subst hpr
      simp
  | cons hd tl ih =>
      obtain ⟨g, ms⟩ := hd
      intro pr hpr
      by_cases hgp : g = p
      · simp [addMatch, hgp] at hpr
        rcases hpr with h | h
        · subst h; simp
        · exact hres pr (List.mem_cons_of_mem _ h)
      · simp [addMatch, hgp] at hpr
        rcases hpr with h | h
        · subst h
          exact hres (g, ms) (List.mem_cons_self _ _)
        · exact ih (fun q hq => hres q (List.mem_cons_of_mem _ hq)) pr h

theorem nonempty_processLine (cmd : List String) (acc : Results) (l : JsonLine)
    (hacc : ∀ pr ∈ acc, pr.2 ≠ []) :
    ∀ pr ∈ processLine cmd acc l, pr.2 ≠ [] := by
  cases l with
  | invalid => exact hacc
  | record ty d =>
      by_cases hty : ty = "match"
      · subst hty
        simpa [processLine] using nonempty_addMatch acc d.path _ hacc
      · simpa [processLine, hty] using hacc

theorem nonempty_parseOutput (cmd : List String) (st : List JsonLine) :
    ∀ acc, (∀ pr ∈ acc, pr.2 ≠ []) → ∀ pr ∈ parseOutput cmd st acc, pr.2 ≠ [] := by
  induction st with
  | nil => intro acc hacc; exact hacc
  | cons l rest ih =>
      intro acc hacc
      exact ih (processLine cmd acc l) (nonempty_processLine cmd acc l hacc)

theorem nonempty_executeSearchesAux :
    ∀ (cmds : List (List String × RunOutcome)) (acc res : Results),
      executeSearchesAux cmds acc = .ok res →
      (∀ pr ∈ acc, pr.2 ≠ []) → ∀ pr ∈ res, pr.2 ≠ [] := by
  intro cmds
  induction cmds with
  | nil =>
      intro acc res h hacc
      simp [executeSearchesAux] at h
      subst h
      exact hacc
  | cons c rest ih =>
      intro acc res h hacc
      obtain ⟨cmd, o⟩ := c
      cases o with
      | toolNotFound => exact absurd h (by simp [executeSearchesAux])
      | permissionError => exact absurd h (by simp [executeSearchesAux])
      | completed ec st =>
          exact ih (parseOutput cmd st acc) res h
            (nonempty_parseOutput cmd st acc hacc)

/-! Pattern-field provenance: every Match ever added carries the space-join of
the owning command's arguments from index 2 on. -/

theorem allP_addMatch (P : RgMatch → Prop) (res : Results) (p : String) (m : RgMatch)
    (hres : ∀ pr ∈ res, ∀ x ∈ pr.2, P x) (hm : P m) :
    ∀ pr ∈ addMatch res p m, ∀ x ∈ pr.2, P x := by
  induction res with
  | nil =>
      intro pr hpr x hx
      simp [addMatch] at hpr
      subst hpr
      simp at hx
      subst hx
      exact hm
  | cons hd tl ih =>
      obtain ⟨g, ms⟩ := hd
      intro pr hpr x hx
      by_cases hgp : g = p
      · simp [addMatch, hgp] at hpr
        rcases hpr with h | h
        · subst h
          simp at hx
          rcases hx with hx | hx
          · exact hres (g, ms) (List.mem_cons_self _ _) x hx
          · subst hx; exact hm
        · exact hres pr (List.mem_cons_of_mem _ h) x hx
      · simp [addMatch, hgp] at hpr
        rcases hpr with h | h
        · subst h
          exact hres (g, ms) (List.mem_cons_self _ _) x hx
        · exact ih (fun q hq => hres q (List.mem_cons_of_mem _ hq)) pr h x hx

theorem allP_processLine (P : RgMatch → Prop) (cmd : List String) (acc : Results)
    (l : JsonLine) (hacc : ∀ pr ∈ acc, ∀ x ∈ pr.2, P x)
    (hcmd : ∀ n t, P ⟨n, t, patField cmd⟩) :
    ∀ pr ∈ processLine cmd acc l, ∀ x ∈ pr.2, P x := by
  cases l with
  | invalid => exact hacc
  | record ty d =>
      by_cases hty : ty = "match"
      · subst hty
        simpa [processLine] using
          allP_addMatch P acc d.path _ hacc (hcmd d.lineNumber d.text)
      · simpa [processLine, hty] using hacc

theorem allP_parseOutput (P : RgMatch → Prop) (cmd : List String) (st : List JsonLine) :
    ∀ acc, (∀ pr ∈ acc, ∀ x ∈ pr.2, P x) → (∀ n t, P ⟨n, t, patField cmd⟩) →
      ∀ pr ∈ parseOutput cmd st acc, ∀ x ∈ pr.2, P x := by
  induction st with
  | nil => intro acc hacc _; exact hacc
  | cons l rest ih =>
      intro acc hacc hcmd
      exact ih (processLine cmd acc l) (allP_processLine P cmd acc l hacc hcmd) hcmd

theorem allP_executeSearchesAux (P : RgMatch → Prop) :
    ∀ (cmds : List (List String × RunOutcome)) (acc res : Results),
      executeSearchesAux cmds acc = .ok res →
      (∀ p ∈ cmds, ∀ n t, P ⟨n, t, patField p.1⟩) →
      (∀ pr ∈ acc, ∀ x ∈ pr.2, P x) →
      ∀ pr ∈ res, ∀ x ∈ pr.2, P x := by
  intro cmds
  induction cmds with
  | nil =>
      intro acc res h _ hacc
      simp [executeSearchesAux] at h
      subst h
      exact hacc
  | cons c rest ih =>
      intro acc res h hcmds hacc
      obtain ⟨cmd, o⟩ := c
      cases o with
      | toolNotFound => exact absurd h (by simp [executeSearchesAux])
      | permissionError => exact absurd h (by simp [executeSearchesAux])
      | completed ec st =>
          refine ih (parseOutput cmd st acc) res h
            (fun p hp => hcmds p (List.mem_cons_of_mem _ hp)) ?_
          exact allP_parseOutput P cmd st acc hacc
            (hcmds (cmd, RunOutcome.completed ec st) (List.mem_cons_self _ _))

/-! Match counting for the output parser. -/

theorem totalMatches_addMatch (res : Results) (p : String) (m : RgMatch) :
    totalMatches (addMatch res p m) = totalMatches res + 1 := by
  induction res with
  | nil => simp [addMatch, totalMatches]
  | cons hd tl ih =>
      obtain ⟨g, ms⟩ := hd
      by_cases hgp : g = p
      · simp [addMatch, hgp, totalMatches]
        omega
      · simp [addMatch, hgp, totalMatches] at ih ⊢
        omega

theorem totalMatches_processLine (cmd : List String) (acc : Results) (l : JsonLine) :
    totalMatches (processLine cmd acc l)
      = totalMatches acc + (if isMatchLine l then 1 else 0) := by
  cases l with
  | invalid => simp [processLine, isMatchLine]
  | record ty d =>
      by_cases hty : ty = "match"
      · subst hty
        simp [processLine, isMatchLine, totalMatches_addMatch]
      · simp [processLine, isMatchLine, hty]

theorem totalMatches_parseOutput (cmd : List String) (st : List JsonLine) :
    ∀ acc, totalMatches (parseOutput cmd st acc)
      = totalMatches acc + st.countP isMatchLine := by
  induction st with
  | nil => intro acc; simp [parseOutput]
  | cons l rest ih =>
      intro acc
      have hstep : parseOutput cmd (l :: rest) acc
          = parseOutput cmd rest (processLine cmd acc l) := rfl
      rw [hstep, ih, totalMatches_processLine, List.countP_cons]
      by_cases h : isMatchLine l
      · simp [h]
        omega
      · simp [h]

/-! Lemmas about the property-key extraction fold. -/

theorem mem_addKey (s : List String) (k0 k : String) :
    k ∈ addKey s k0 ↔ k ∈ s ∨ k = k0 := by
  unfold addKey
  by_cases h : k0 ∈ s
  · rw [if_pos h]
    constructor
    · exact Or.inl
    · rintro (hk | rfl)
      · exact hk
      · exact h
  · rw [if_neg h]
    simp

theorem nodup_addKey (s : List String) (k0 : String) (hs : s.Nodup) :
    (addKey s k0).Nodup := by
  unfold addKey
  by_cases h : k0 ∈ s
  · rw [if_pos h]
    exact hs
  · rw [if_neg h]
    simp [List.nodup_append, hs, h]

theorem mem_keyFoldInner (ms : List RgMatch) :
    ∀ (acc : List String) (k : String),
      (k ∈ ms.foldl (fun a m =>
          match keyOf m.content with
          | some k0 => addKey a k0
          | none => a) acc)
        ↔ k ∈ acc ∨ ∃ m ∈ ms, keyOf m.content = some k := by
  induction ms with
  | nil =>
      intro acc k
      simp
  | cons m rest ih =>
      intro acc k
      rw [List.foldl_cons]
      rcases hk : keyOf m.content with _ | k0
      · simp only [hk]
        rw [ih]
        simp [hk]
      · simp only [hk]
        rw [ih, mem_addKey]
        simp only [List.mem_cons]
        constructor
        · rintro ((h | rfl) | h)
          · exact Or.inl h
          · exact Or.inr ⟨m, Or.inl rfl, by rw [hk]⟩
          · obtain ⟨x, hx, hxk⟩ := h
            exact Or.inr ⟨x, Or.inr hx, hxk⟩
        · rintro (h | ⟨x, hx | hx, hxk⟩)
          · exact Or.inl (Or.inl h)
          · subst hx
            rw [hk] at hxk
            injection hxk with hxk
            exact Or.inl (Or.inr hxk.symm)
          · exact Or.inr ⟨x, hx, hxk⟩

theorem nodup_keyFoldInner (ms : List RgMatch) :
    ∀ acc : List String, acc.Nodup →
      (ms.foldl (fun a m =>
          match keyOf m.content with
          | some k0 => addKey a k0
          | none => a) acc).Nodup := by
  induction ms with
  | nil => intro acc hacc; exact hacc
  | cons m rest ih =>
      intro acc hacc
      rw [List.foldl_cons]
      rcases hk : keyOf m.content with _ | k0
      · simp only [hk]
        exact ih acc hacc
      · simp only [hk]
        exact ih (addKey acc k0) (nodup_addKey acc k0 hacc)

theorem mem_extractOuter (res : Results) :
    ∀ (acc : List String) (k : String),
      (k ∈ res.foldl (fun acc pr =>
          if isConfigPathCode pr.1 then
            pr.2.foldl (fun a m =>
              match keyOf m.content with
              | some k0 => addKey a k0
              | none => a) acc
          else acc) acc)
        ↔ k ∈ acc ∨ ∃ pr ∈ res, isConfigPathCode pr.1 = true ∧
            ∃ m ∈ pr.2, keyOf m.content = some k := by
  induction res with
  | nil =>
      intro acc k
      simp
  | cons pr rest ih =>
      intro acc k
      rw [List.foldl_cons]
      by_cases hconf : isConfigPathCode pr.1
      · simp only [hconf, if_true]
        rw [ih, mem_keyFoldInner]
        simp only [List.mem_cons]
        constructor
        · rintro ((h | ⟨m, hm, hmk⟩) | ⟨q, hq, hqc, m, hm, hmk⟩)
          · exact Or.inl h
          · exact Or.inr ⟨pr, Or.inl rfl, hconf, m, hm, hmk⟩
          · exact Or.inr ⟨q, Or.inr hq, hqc, m, hm, hmk⟩
        · rintro (h | ⟨q, hq | hq, hqc, m, hm, hmk⟩)
          · exact Or.inl (Or.inl h)
          · subst hq
            exact Or.inl (Or.inr ⟨m, hm, hmk⟩)
          · exact Or.inr ⟨q, hq, hqc, m, hm, hmk⟩
      · simp only [hconf, if_false]
        rw [ih]
        simp only [List.mem_cons]
        constructor
        · rintro (h | ⟨q, hq, hqc, m, hm, hmk⟩)
          · exact Or.inl h
          · exact Or.inr ⟨q, Or.inr hq, hqc, m, hm, hmk⟩
        · rintro (h | ⟨q, hq | hq, hqc, m, hm, hmk⟩)
          · exact Or.inl h
          · subst hq
            exact absurd hqc (by simpa using hconf)
          · exact Or.inr ⟨q, hq, hqc, m, hm, hmk⟩

theorem nodup_extractOuter (res : Results) :
    ∀ acc : List String, acc.Nodup →
      (res.foldl (fun acc pr =>
          if isConfigPathCode pr.1 then
            pr.2.foldl (fun a m =>
              match keyOf m.content with
              | some k0 => addKey a k0
              | none => a) acc
          else acc) acc).Nodup := by
  induction res with
  | nil => intro acc hacc; exact hacc
  | cons pr rest ih =>
      intro acc hacc
      rw [List.foldl_cons]
      by_cases hconf : isConfigPathCode pr.1
      · simp only [hconf, if_true]
        exact ih _ (nodup_keyFoldInner pr.2 acc hacc)
      · simp only [hconf, if_false]
        exact ih _ hacc

/-! Lemmas about the `rg_script` main loop. -/

theorem runAll_error_iff (os : List ScriptOutcome) :
    (runAll os).2.isSome ↔ ScriptOutcome.toolNotFound ∈ os := by
  induction os with
  | nil => simp [runAll]
  | cons o rest ih =>
      cases o with
      | toolNotFound => simp [runAll, run_ripgrep_search]
      | completed out =>
          simp [runAll, run_ripgrep_search, ih]

theorem runAll_error_val (os : List ScriptOutcome) :
    ∀ e, (runAll os).2 = some e → e = (toolMissingMsg, 1) := by
  induction os with
  | nil =>
      intro e h
      simp [runAll] at h
  | cons o rest ih =>
      intro e h
      cases o with
      | toolNotFound =>
          simp [runAll, run_ripgrep_search] at h
          exact h.symm
      | completed out =>
          simp [runAll, run_ripgrep_search] at h
          exact ih e h

theorem runAll_outputs_before_failure :
    ∀ (pre post : List ScriptOutcome), ScriptOutcome.toolNotFound ∉ pre →
      (runAll (pre ++ ScriptOutcome.toolNotFound :: post)).1 = pre.map stdoutOf := by
  intro pre
  induction pre with
  | nil =>
      intro post _
      simp [runAll, run_ripgrep_search]
  | cons p pre' ih =>
      intro post hp
      cases p with
      | toolNotFound =>
          exact absurd (List.mem_cons_self _ _) hp
      | completed out =>
          have hp' : ScriptOutcome.toolNotFound ∉ pre' :=
            fun h => hp (List.mem_cons_of_mem _ h)
          simp [runAll, run_ripgrep_search, stdoutOf, ih post hp']

/-! ## Claim theorems -/

/-- Claim C1, counterexample: at this input the code returns `{"x", ""}`, but
the claim's reading (seven extensions, ends-with, non-empty keys) demands
`{"k"}`: the match in `a.json` must contribute `"k"` per the claim, yet the
code ignores `.json` files entirely; the code also accepts `b.env.bak`
(substring, not suffix) and the empty key from `c.env`. -/
theorem c1_counterexample :
    extract_property_keys c1Input = ["x", ""] ∧
    extract_property_keys_claim c1Input = ["k"] ∧
    "k" ∈ extract_property_keys_claim c1Input ∧
    "k" ∉ extract_property_keys c1Input := by
  decide

/-- Claim C1, amended: the extractor returns exactly the deduplicated set of
trimmed key strings (empty keys included) derived from Matches whose file path
CONTAINS one of `.properties`, `.yml`, `.yaml`, `.env` as a substring, with
the key taken before the first `=` (else before the first `:`, else nothing);
an empty input yields an empty set. -/
theorem c1_extract_keys (res : Results) :
    (extract_property_keys res).Nodup ∧
    (∀ k, k ∈ extract_property_keys res ↔ k ∈ extract_property_keys_amended res) ∧
    extract_property_keys [] = [] := by
  refine ⟨nodup_extractOuter res [] List.nodup_nil, ?_, rfl⟩
  intro k
  have h2 := mem_extractOuter res [] k
  simp only [List.not_mem_nil, false_or] at h2
  rw [show extract_property_keys res
      = res.foldl (fun acc pr =>
          if isConfigPathCode pr.1 then
            pr.2.foldl (fun a m =>
              match keyOf m.content with
              | some k0 => addKey a k0
              | none => a) acc
          else acc) [] from rfl]
  rw [h2]
  simp only [extract_property_keys_amended, List.mem_dedup, List.mem_flatMap,
    List.mem_filter, List.mem_filterMap]
  constructor
  · rintro ⟨pr, hpr, hconf, m, hm, hmk⟩
    exact ⟨pr, ⟨hpr, hconf⟩, m, hm, hmk⟩
  · rintro ⟨pr, ⟨hpr, hconf⟩, m, hm, hmk⟩
    exact ⟨pr, hpr, hconf, m, hm, hmk⟩

/-- Claim C2: the `rg_script` run fails exactly when an invocation hits the
missing binary; the failure value is the one-line message with exit status 1;
the outputs printed are exactly those of the calls before the failure (none
for later targets); and in `_execute_searches` a missing binary likewise
terminates the batch at once with the propagating `FileNotFoundError`. -/
theorem c2_tool_unavailable :
    (∀ os : List ScriptOutcome,
        ((runAll os).2.isSome ↔ ScriptOutcome.toolNotFound ∈ os)) ∧
    (∀ os e, (runAll os).2 = some e → e = (toolMissingMsg, 1)) ∧
    (∀ pre post, ScriptOutcome.toolNotFound ∉ pre →
        (runAll (pre ++ ScriptOutcome.toolNotFound :: post)).1 = pre.map stdoutOf) ∧
    (∀ (c : List String × RunOutcome) cs, c.2 = RunOutcome.toolNotFound →
        executeSearches (c :: cs) = .error .fileNotFoundError) := by
  refine ⟨runAll_error_iff, runAll_error_val, runAll_outputs_before_failure, ?_⟩
  rintro ⟨cmd, o⟩ cs h
  simp only at h
  subst h
  rfl

/-- Witness for C2: a concrete run with the tool vanishing at the second call
prints only the first call's output and stops with the one-line message and
exit status 1. -/
theorem c2_witness :
    (runAll [ScriptOutcome.completed "a", ScriptOutcome.toolNotFound,
        ScriptOutcome.completed "b"]).1 = ["a"] ∧
    (runAll [ScriptOutcome.completed "a", ScriptOutcome.toolNotFound,
        ScriptOutcome.completed "b"]).2 = some (toolMissingMsg, 1) := by
  constructor
  · exact c2_tool_unavailable.2.2.1 [ScriptOutcome.completed "a"]
      [ScriptOutcome.completed "b"] (by decide)
  · decide

/-- Claim C3 is the intended behavior but the code does not implement it: the
handler catches `subprocess.CalledProcessError`, which `subprocess.run` never
raises without `check=True`, so a `PermissionError` on the first invocation
propagates and aborts the whole batch — the second invocation, which alone
would have produced a match (second conjunct), contributes nothing and is
never run. -/
theorem c3_permission_error_aborts :
    executeSearches
        [ ((search_property_references_cmds "r" "key").headI, RunOutcome.permissionError),
          ((search_property_references_cmds "r" "key").getLastD [],
            RunOutcome.completed 0 [.record "match" ⟨"f.py", 1, "t"⟩]) ]
      = .error .permissionErr ∧
    executeSearches
        [ ((search_property_references_cmds "r" "key").getLastD [],
            RunOutcome.completed 0 [.record "match" ⟨"f.py", 1, "t"⟩]) ]
      = .ok [("f.py", [⟨1, "t", "-e get.*key -g *.\x7bjava,py,kt,scala\x7d r"⟩])] :=
  ⟨rfl, rfl⟩

/-- Claim C4, counterexample: in the first variable-trace invocation the
pattern sits at index 2 and is followed by `-g`, the glob, `-B 2`, `-A 3` and
only then the root — it is not the final positional argument. -/
theorem c4_counterexample :
    (trace_variable_usage_cmds "r" "x").headI
      = ["rg", "--json", "x\\s*=", "-g", codeGlob, "-B", "2", "-A", "3", "r"] ∧
    ¬ patternIsFinalPositional ((trace_variable_usage_cmds "r" "x").headI) "x\\s*=" "r" := by
  decide

/-- Claim C4, amended: only the exploratory script's builder (pattern last)
and the literal-URL phase (pattern directly before the root) satisfy the
claim; the property-reference and HTTP phases pass the pattern via `-e`
followed by `-g` glob (and `-A 5 -B 2` for HTTP) and then the root, and the
variable-trace phase has the pattern positional at index 2 followed by
`-g` glob, `-B 2`, `-A 3`, then the root. -/
theorem c4_pattern_position :
    (∀ p fts cb ca, (runRipgrepSearchCmd p fts cb ca).getLast? = some p) ∧
    (∀ root u, ∀ c ∈ search_literal_urls_cmds root u,
        c.getLast? = some root ∧
          (c.dropLast.getLast? = some u ∨ c.dropLast.getLast? = some (lastSegment u))) ∧
    (∀ root k, ∀ c ∈ search_property_references_cmds root k,
        c.length = 7 ∧ c.get? 2 = some "-e" ∧ c.get? 4 = some "-g" ∧
          c.get? 5 = some codeGlob ∧ c.getLast? = some root) ∧
    (∀ root, ∀ c ∈ search_http_calls_cmds root,
        c.length = 11 ∧ c.get? 2 = some "-e" ∧ c.get? 4 = some "-g" ∧
          c.get? 6 = some "-A" ∧ c.get? 8 = some "-B" ∧ c.getLast? = some root) ∧
    (∀ root v, ∀ c ∈ trace_variable_usage_cmds root v,
        c.length = 10 ∧ c.get? 3 = some "-g" ∧ c.get? 5 = some "-B" ∧
          c.get? 7 = some "-A" ∧ c.getLast? = some root) := by
  refine ⟨?_, ?_, ?_, ?_, ?_⟩
  · intro p fts cb ca
    simp [runRipgrepSearchCmd]
  · intro root u c hc
    simp only [search_literal_urls_cmds, List.mem_cons, List.not_mem_nil, or_false] at hc
    rcases hc with rfl | rfl | rfl
    · exact ⟨rfl, Or.inl rfl⟩
    · exact ⟨rfl, Or.inr rfl⟩
    · exact ⟨rfl, Or.inl rfl⟩
  · intro root k c hc
    simp only [search_property_references_cmds, List.mem_map] at hc
    obtain ⟨p, hp, rfl⟩ := hc
    exact ⟨rfl, rfl, rfl, rfl, rfl⟩
  · intro root c hc
    simp only [search_http_calls_cmds, List.mem_append, List.mem_map] at hc
    rcases hc with ⟨p, hp, rfl⟩ | ⟨p, hp, rfl⟩
    · exact ⟨rfl, rfl, rfl, rfl, rfl, rfl⟩
    · exact ⟨rfl, rfl, rfl, rfl, rfl, rfl⟩
  · intro root v c hc
    simp only [trace_variable_usage_cmds, List.mem_cons, List.not_mem_nil, or_false] at hc
    rcases hc with rfl | rfl | rfl
    · exact ⟨rfl, rfl, rfl, rfl, rfl⟩
    · exact ⟨rfl, rfl, rfl, rfl, rfl⟩
    · exact ⟨rfl, rfl, rfl, rfl, rfl⟩

/-- Witness for C4 (amended), at the first variable-trace command for
variable `x` and root `r`. -/
theorem c4_witness :
    (trace_variable_usage_cmds "r" "x").headI.length = 10 ∧
    (trace_variable_usage_cmds "r" "x").headI.get? 3 = some "-g" ∧
    (trace_variable_usage_cmds "r" "x").headI.get? 5 = some "-B" ∧
    (trace_variable_usage_cmds "r" "x").headI.get? 7 = some "-A" ∧
    (trace_variable_usage_cmds "r" "x").headI.getLast? = some "r" :=
  c4_pattern_position.2.2.2.2 "r" "x" _ (by decide)

/-- Claim C5, counterexample: a match produced by the first literal-URL
invocation for URL `u` carries the field `"-i u r"` — the space-join of the
flag, the pattern and the root — not the invocation's pattern `"u"`. -/
theorem c5_counterexample :
    executeSearches
        [ ((search_literal_urls_cmds "r" "u").headI,
            RunOutcome.completed 0 [.record "match" ⟨"f.txt", 1, "u here"⟩]) ]
      = .ok [("f.txt", [⟨1, "u here", "-i u r"⟩])] ∧
    ("-i u r" : String) ≠ "u" :=
  ⟨rfl, by decide⟩

/-- Claim C5, amended: every Match in an aggregated result carries, as its
`pattern` field, the space-join of some owning invocation's arguments from
index 2 onward (flags, pattern and root included). -/
theorem c5_pattern_field (cmds : List (List String × RunOutcome)) (res : Results)
    (h : executeSearches cmds = .ok res) :
    ∀ pr ∈ res, ∀ m ∈ pr.2, m.pattern ∈ cmds.map fun p => patField p.1 := by
  refine allP_executeSearchesAux
    (fun m => m.pattern ∈ cmds.map fun p => patField p.1) cmds [] res h ?_ ?_
  · intro p hp n t
    exact List.mem_map.mpr ⟨p, hp, rfl⟩
  · intro pr hpr
    exact absurd hpr (List.not_mem_nil _)

/-- Witness for C5 (amended), at a concrete one-invocation batch. -/
theorem c5_witness :
    (⟨4, "t1", "-e p1 -g *.py r"⟩ : RgMatch).pattern
      ∈ c10Input.map (fun p => patField p.1) :=
  c5_pattern_field c10Input [("f.py", [⟨4, "t1", "-e p1 -g *.py r"⟩])] rfl
    ("f.py", [⟨4, "t1", "-e p1 -g *.py r"⟩]) (by decide) _ (by decide)

/-- Claim C6: parsing one invocation's JSON-mode stream yields exactly as
many Matches as there are lines that parse as JSON records with `type`
`"match"`; invalid lines and non-match records are skipped without aborting
and do not affect the count. -/
theorem c6_match_count (cmd : List String) (st : List JsonLine) :
    totalMatches (parseOutput cmd st []) = st.countP isMatchLine := by
  simpa [totalMatches] using totalMatches_parseOutput cmd st []

/-- Claim C7: the rendered HTTP-usage section only depends on the first 3
Matches of each file (rendering a capped copy of the data produces the same
string), and the number of match lines rendered for a file with `ms` Matches
is `min 3 ms.length`; the aggregated mapping itself is a read-only input of
the renderer and keeps all its Matches. -/
theorem c7_http_cap (calls : Results) :
    renderHttpSection calls
        = renderHttpSection (calls.map fun pr => (pr.1, pr.2.take 3)) ∧
    ∀ f ms, (f, ms) ∈ calls →
      ((ms.take 3).map renderMatchLine).length = min 3 ms.length := by
  constructor
  · unfold renderHttpSection
    congr 1
    rw [List.map_map]
    refine congrArg String.join (List.map_congr_left ?_)
    intro pr _
    show renderFileBlock pr.1 pr.2 = renderFileBlock pr.1 (pr.2.take 3)
    unfold renderFileBlock
    rw [List.take_take]
    simp
  · intro f ms _
    simp

/-- Witness for C7, at a file holding four aggregated Matches: three lines
are rendered and the capped rendering coincides with the full one. -/
theorem c7_witness :
    renderHttpSection c7Input
        = renderHttpSection (c7Input.map fun pr => (pr.1, pr.2.take 3)) ∧
    ((c7Input.headI.2.take 3).map renderMatchLine).length = min 3 c7Input.headI.2.length :=
  ⟨(c7_http_cap c7Input).1,
    (c7_http_cap c7Input).2 c7Input.headI.1 c7Input.headI.2 (by decide)⟩

/-- Claim C8: when every invocation of a batch completes, the aggregation
succeeds and maps each file path to exactly the concatenation, in invocation
order then arrival order, of that file's Matches from each invocation —
created on first sight (present iff non-empty), duplicates preserved. -/
theorem c8_aggregation (cmds : List (List String × RunOutcome))
    (hc : ∀ p ∈ cmds, p.2.isCompleted = true) :
    executeSearches cmds = .ok (foldResults cmds []) ∧
    ∀ f, findFile (foldResults cmds []) f
        = if flatFor f cmds = [] then none else some (flatFor f cmds) := by
  refine ⟨executeSearchesAux_ok cmds hc [], ?_⟩
  intro f
  have h := findFile_foldResults cmds [] f
  simpa [findFile] using h

/-- Witness for C8, at two invocations hitting the same file on the same
physical line: both Matches appear, in invocation order, undeduplicated. -/
theorem c8_witness :
    executeSearches c8Input = .ok (foldResults c8Input []) ∧
    findFile (foldResults c8Input []) "f.py"
        = (if flatFor "f.py" c8Input = [] then none else some (flatFor "f.py" c8Input)) ∧
    flatFor "f.py" c8Input
        = [⟨4, "t1", "-e p1 -g *.py r"⟩, ⟨4, "t1", "-e p2 -g *.py r"⟩] :=
  ⟨(c8_aggregation c8Input (by decide)).1,
    (c8_aggregation c8Input (by decide)).2 "f.py", by decide⟩

/-- Claim C9, counterexample: the property key `a.b` and the URL `a.b` are
embedded verbatim into regex patterns; `re.escape` would have produced
`a\.b`, so metacharacters are not escaped for these phases. -/
theorem c9_counterexample :
    (search_property_references_cmds "r" "a.b").headI.get? 3 = some "@Value.*a.b" ∧
    (search_literal_urls_cmds "r" "a.b").headI.get? 3 = some "a.b" ∧
    reEscape "a.b" = "a\\.b" ∧
    ("@Value.*a.b" : String) ≠ "@Value.*" ++ reEscape "a.b" ∧
    ("a.b" : String) ≠ reEscape "a.b" := by
  decide

/-- Claim C9, amended: only the variable-trace phase escapes its
user-supplied string (via `re.escape`) before embedding; the literal-URL and
property-reference phases embed the URL (and its last segment) and the
property key verbatim. -/
theorem c9_escaping :
    (∀ root v, (trace_variable_usage_cmds root v).map (fun c => (c.get? 2).getD "")
        = [reEscape v ++ "\\s*=", reEscape v ++ "\\.", "\\(" ++ reEscape v ++ "[,\\)]"]) ∧
    (∀ root u, (search_literal_urls_cmds root u).map (fun c => (c.dropLast.getLast?).getD "")
        = [u, lastSegment u, u]) ∧
    (∀ root k, (search_property_references_cmds root k).map (fun c => (c.get? 3).getD "")
        = propertyPatterns k) := by
  refine ⟨?_, ?_, ?_⟩
  · intro root v
    rfl
  · intro root u
    rfl
  · intro root k
    rfl

/-- Claim C10: in any successfully aggregated mapping, every file-path entry
holds a non-empty Match list — entries are only created when a first Match is
appended. -/
theorem c10_entries_nonempty (cmds : List (List String × RunOutcome)) (res : Results)
    (h : executeSearches cmds = .ok res) :
    ∀ pr ∈ res, pr.2 ≠ [] :=
  nonempty_executeSearchesAux cmds [] res h (fun _ hpr => absurd hpr (List.not_mem_nil _))

/-- Witness for C10, at a concrete one-invocation batch. -/
theorem c10_witness :
    executeSearches c10Input = .ok [("f.py", [⟨4, "t1", "-e p1 -g *.py r"⟩])] ∧
    (("f.py", [(⟨4, "t1", "-e p1 -g *.py r"⟩ : RgMatch)]) : String × List RgMatch).2 ≠ [] :=
  ⟨rfl,
    c10_entries_nonempty c10Input [("f.py", [⟨4, "t1", "-e p1 -g *.py r"⟩])] rfl
      ("f.py", [⟨4, "t1", "-e p1 -g *.py r"⟩]) (by decide)⟩

end RipgrepIdeas
